import Mathlib

/-!
Verification of the HTTP IPC command broker in `src/roblox-test-mcp/src/http-ipc.ts`.

The broker keeps three pieces of mutable state: the pending-command queue
(`pendingCommands`, a JS `Map` iterated in insertion order), the correlation
table (`responseCallbacks` plus the per-command timeout timer, which are
created together by `sendCommandHttp` and always removed together: the timeout
handler deletes the callback, and the `/response` handler's callback clears the
timer just before the callback entry is deleted), and the mode flag
(`gameIsPlaying`).  We model the callback/timer pair as one `CorrEntry`
carrying what the JS closures capture (id, action, target context, deadline),
and the caller-visible promise of each `sendCommandHttp` call as an entry in
`outcomes` that is settled at most once, like a JS promise.

HTTP bodies are JSON values; a body that `JSON.parse` rejects is `none`.
Property access on the parsed value follows JavaScript: `x.field` on a
non-object is `undefined` (modelled as `none`), except on `null`, where it
throws a `TypeError` that the handlers' `try/catch` turns into a 400 reply.
-/

/-- A JSON value as produced by `JSON.parse`. -/
inductive JVal where
  | jnull
  | jbool (b : Bool)
  | jnum (n : Int)
  | jstr (s : String)
  | jarr (elems : List JVal)
  | jobj (fields : List (String × JVal))

/-- First binding of `key` in an object's field list (a `JSON.parse` result has
no duplicate keys, so first-match agrees with the JS object). -/
def lookupField (key : String) : List (String × JVal) → Option JVal
  | [] => none
  | (k, v) :: rest => if k = key then some v else lookupField key rest

/-- JavaScript property access `v.key` on a parsed JSON value: a field of an
object, `undefined` (`none`) on any other non-null value.  The caller is
responsible for the `null` case, where JS throws instead. -/
def getField (v : JVal) (key : String) : Option JVal :=
  match v with
  | JVal.jobj fields => lookupField key fields
  | _ => none

/-- `Command` of http-ipc.ts. -/
structure Command where
  id : String
  action : String
  payload : Option (List (String × JVal))
  timestamp : Nat
  targetContext : Option String

/-- One entry of the correlation table: the `responseCallbacks` entry together
with the timeout timer registered for the same id by `sendCommandHttp`.  The
fields are what the two closures capture. -/
structure CorrEntry where
  id : String
  action : String
  targetContext : String
  deadline : Nat

/-- The settled result of a `sendCommandHttp` promise: `resolved` with the
parsed `/response` body, or `rejected` with the timeout error message. -/
inductive Outcome where
  | resolved (v : JVal)
  | rejected (msg : String)

/-- The broker's mutable state. -/
structure BrokerState where
  pendingCommands : List Command
  correlations : List CorrEntry
  gameIsPlaying : Bool
  outcomes : List (String × Outcome)

/-- The empty broker state at module load (`gameIsPlaying = false`). -/
def initState : BrokerState :=
  { pendingCommands := [], correlations := [], gameIsPlaying := false, outcomes := [] }

/-- `SERVER_ONLY_ACTIONS` of http-ipc.ts. -/
def SERVER_ONLY_ACTIONS : List String := ["execute"]

/-- `EDIT_ONLY_ACTIONS` of http-ipc.ts. -/
def EDIT_ONLY_ACTIONS : List String := ["reload", "savePlace"]

/-- `ANY_CONTEXT_ACTIONS` of http-ipc.ts. -/
def ANY_CONTEXT_ACTIONS : List String := ["ping", "diagnostics", "getState"]

/-- `getTargetContext` of http-ipc.ts, with the `gameIsPlaying` flag passed
explicitly. -/
def getTargetContext (gameIsPlaying : Bool) (action : String) : String :=
  if action ∈ EDIT_ONLY_ACTIONS then "Edit"
  else if action ∈ SERVER_ONLY_ACTIONS ∧ gameIsPlaying then "Server"
  else if action ∈ ANY_CONTEXT_ACTIONS then
    (if gameIsPlaying then "Server" else "Edit")
  else if gameIsPlaying then "Server" else "Edit"

/-- `shouldDeliverToContext` of http-ipc.ts.  `command.targetContext ||
getTargetContext(...)` falls back both when the field is absent and when it is
the empty string (the only falsy string). -/
def shouldDeliverToContext (gameIsPlaying : Bool) (command : Command)
    (requestingContext : String) : Bool :=
  let target :=
    match command.targetContext with
    | some t => if t = "" then getTargetContext gameIsPlaying command.action else t
    | none => getTargetContext gameIsPlaying command.action
  if target = "any" then true
  else target = requestingContext

/-- The requesting context of a `GET /command`:
`url.searchParams.get('context') || 'Edit'` — absent parameter gives `null`,
and both `null` and the empty string are falsy. -/
def pollContext : Option String → String
  | none => "Edit"
  | some c => if c = "" then "Edit" else c

/-- The claim loop of the `GET /command` handler: scan `pendingCommands` in
insertion order, return and delete the first command deliverable to the
requesting context.  (`Map` keys are unique, so `pendingCommands.delete(id)`
removes exactly the entry the loop found.) -/
def claimFirst (gameIsPlaying : Bool) (requestingContext : String) :
    List Command → Option Command × List Command
  | [] => (none, [])
  | c :: rest =>
    if shouldDeliverToContext gameIsPlaying c requestingContext then (some c, rest)
    else
      let r := claimFirst gameIsPlaying requestingContext rest
      (r.1, c :: r.2)

/-- The `GET /command` handler: `none` as first component is the 204 no-content
reply, `some c` is the 200 reply carrying the claimed command. -/
def handleGetCommand (ctxParam : Option String) (s : BrokerState) :
    Option Command × BrokerState :=
  let r := claimFirst s.gameIsPlaying (pollContext ctxParam) s.pendingCommands
  (r.1, { s with pendingCommands := r.2 })

/-- The id a `/response` body correlates on: `response.id` must be a string to
match a `Map` key (Map lookup does no coercion).  `none` both for a missing or
non-string `id` and for an unparseable body. -/
def responseId : Option JVal → Option String
  | some v =>
    match getField v "id" with
    | some (JVal.jstr i) => some i
    | _ => none
  | none => none

/-- `Map.delete` on the correlation table: remove the (unique) entry keyed by
`i`. -/
def eraseCorr (i : String) : List CorrEntry → List CorrEntry
  | [] => []
  | e :: rest => if e.id = i then rest else e :: eraseCorr i rest

/-- `Map.delete` on the pending-command queue. -/
def eraseCommand (i : String) : List Command → List Command
  | [] => []
  | c :: rest => if c.id = i then rest else c :: eraseCommand i rest

/-- Is an id present in the correlation table? -/
def hasCorr (corrs : List CorrEntry) (i : String) : Bool :=
  corrs.any fun e => e.id = i

/-- Settling a promise: a JS promise settles at most once, so a second
`resolve`/`reject` for an already-settled id is a no-op. -/
def settleOutcome (outs : List (String × Outcome)) (i : String) (o : Outcome) :
    List (String × Outcome) :=
  if outs.any (fun p => p.1 = i) then outs else outs ++ [(i, o)]

/-- Settled outcome of the promise for id `i`, if any. -/
def lookupOutcome (i : String) : List (String × Outcome) → Option Outcome
  | [] => none
  | (k, o) :: rest => if k = i then some o else lookupOutcome i rest

/-- The `POST /response` handler.  Returns the HTTP status (200 acknowledgment
or 400 on a body whose processing throws) and the new state.  An unparseable
body throws in `JSON.parse`; a parsed `null` throws on the `response.id`
access; both land in the same `catch` giving 400 with no state change.
Otherwise the callback registered for `response.id` — if any — is invoked with
the parsed body (clearing the timer and resolving the caller's promise) and
its entry is deleted; a missing callback is logged and ignored. -/
def handleResponse (body : Option JVal) (s : BrokerState) : Nat × BrokerState :=
  match body with
  | none => (400, s)
  | some JVal.jnull => (400, s)
  | some v =>
    match responseId (some v) with
    | some i =>
      if hasCorr s.correlations i then
        (200, { s with
                  correlations := eraseCorr i s.correlations,
                  outcomes := settleOutcome s.outcomes i (Outcome.resolved v) })
      else (200, s)
    | none => (200, s)

/-- JavaScript strict equality `x === true`: only the boolean `true` compares
equal. -/
def strictEqTrue : Option JVal → Bool
  | some (JVal.jbool true) => true
  | _ => false

/-- The `POST /state` handler.  Returns the HTTP status with the echoed
`isPlaying` of the 200 reply body, and the new state.  `state.isPlaying ===
true` is a strict comparison: only the boolean `true` counts.  An unparseable
body throws in `JSON.parse`; a parsed `null` throws on the `state.isPlaying`
access; both land in the `catch` giving 400 with no state change. -/
def handleState (body : Option JVal) (s : BrokerState) :
    (Nat × Option Bool) × BrokerState :=
  match body with
  | none => ((400, none), s)
  | some JVal.jnull => ((400, none), s)
  | some v =>
    let isPlaying : Bool := strictEqTrue (getField v "isPlaying")
    ((200, some isPlaying), { s with gameIsPlaying := isPlaying })

/-- The timeout handler's rejection message:
`Timeout waiting for response to command ${command.id} (action: ${action},
target: ${targetContext})`. -/
def timeoutMessage (i action target : String) : String :=
  "Timeout waiting for response to command " ++ i ++ " (action: " ++ action ++
    ", target: " ++ target ++ ")"

/-- `Map.set`: update the entry with the same id in place, else append.  (With
fresh uuids the update branch never fires.) -/
def mapSetCommand (cmds : List Command) (c : Command) : List Command :=
  if cmds.any (fun x => x.id = c.id) then
    cmds.map fun x => if x.id = c.id then c else x
  else cmds ++ [c]

/-- `Map.set` for the correlation table. -/
def mapSetCorr (corrs : List CorrEntry) (e : CorrEntry) : List CorrEntry :=
  if corrs.any (fun x => x.id = e.id) then
    corrs.map fun x => if x.id = e.id then e else x
  else corrs ++ [e]

/-- `sendCommandHttp` of http-ipc.ts up to its suspension point: resolve the
target context from the current mode, build the command (with the generated
uuid `i` and `Date.now()` value `now` passed explicitly), enqueue it, and
register the correlation entry (timeout timer plus response callback). -/
def sendCommandHttp (action : String) (payload : Option (List (String × JVal)))
    (timeout : Nat) (i : String) (now : Nat) (s : BrokerState) :
    Command × BrokerState :=
  let targetContext := getTargetContext s.gameIsPlaying action
  let command : Command :=
    { id := i, action := action, payload := payload, timestamp := now,
      targetContext := some targetContext }
  (command,
   { s with
       pendingCommands := mapSetCommand s.pendingCommands command,
       correlations := mapSetCorr s.correlations
         ⟨i, action, targetContext, now + timeout⟩ })

/-- The timeout timer for id `i` firing: only possible while its correlation
entry is still present (the response callback's `clearTimeout` removes it).
The handler deletes the callback and the pending command and rejects the
caller's promise with the timeout message built from the captured closure
state. -/
def fireTimeout (i : String) (s : BrokerState) : BrokerState :=
  match s.correlations.find? (fun e => e.id = i) with
  | none => s
  | some e =>
    { s with
        correlations := eraseCorr i s.correlations,
        pendingCommands := eraseCommand i s.pendingCommands,
        outcomes := settleOutcome s.outcomes i
          (Outcome.rejected (timeoutMessage e.id e.action e.targetContext)) }

/-- One externally observable event of the broker. -/
inductive Event where
  | submit (action : String) (payload : Option (List (String × JVal)))
      (timeout : Nat) (i : String) (now : Nat)
  | pollCmd (ctxParam : Option String)
  | postResponse (body : Option JVal)
  | postState (body : Option JVal)
  | fire (i : String)

/-- State transition of one event. -/
def step (s : BrokerState) : Event → BrokerState
  | Event.submit action payload timeout i now =>
      (sendCommandHttp action payload timeout i now s).2
  | Event.pollCmd ctxParam => (handleGetCommand ctxParam s).2
  | Event.postResponse body => (handleResponse body s).2
  | Event.postState body => (handleState body s).2
  | Event.fire i => fireTimeout i s

/-- Running a sequence of events. -/
def run (s : BrokerState) (es : List Event) : BrokerState := es.foldl step s

/-- Does an event submit a command with id `i`? -/
def submitsId (i : String) : Event → Bool
  | Event.submit _ _ _ j _ => j = i
  | _ => false

/-! ## Helper lemmas -/

/-- `strictEqTrue` holds exactly on the boolean `true`. -/
theorem strictEqTrue_iff (o : Option JVal) :
    strictEqTrue o = true ↔ o = some (JVal.jbool true) := by
  cases o with
  | none => simp [strictEqTrue]
  | some w =>
    cases w with
    | jbool b => cases b <;> simp [strictEqTrue]
    | jnull => simp [strictEqTrue]
    | jnum n => simp [strictEqTrue]
    | jstr s => simp [strictEqTrue]
    | jarr xs => simp [strictEqTrue]
    | jobj fs => simp [strictEqTrue]

/-- Routing fallback: an action in neither `EDIT_ONLY_ACTIONS` nor
`SERVER_ONLY_ACTIONS` resolves to Server during play and Edit otherwise (the
any-context rule and the default rule coincide). -/
theorem getTargetContext_fallback (playing : Bool) (action : String)
    (h1 : action ∉ EDIT_ONLY_ACTIONS) (h2 : action ∉ SERVER_ONLY_ACTIONS) :
    getTargetContext playing action = if playing then "Server" else "Edit" := by
  rw [getTargetContext, if_neg h1, if_neg (fun hc => h2 hc.1), ite_self]

/-- Every branch of `handleResponse`: a 400 with untouched state, a 200 with
untouched state, or a 200 that erases the matched correlation entry and
resolves its promise with the parsed body. -/
theorem handleResponse_cases (body : Option JVal) (s : BrokerState) :
    handleResponse body s = (400, s) ∨
    handleResponse body s = (200, s) ∨
    (∃ v i, body = some v ∧ responseId body = some i ∧
      hasCorr s.correlations i = true ∧
      handleResponse body s =
        (200, { s with
                  correlations := eraseCorr i s.correlations,
                  outcomes := settleOutcome s.outcomes i (Outcome.resolved v) })) := by
  rcases body with _ | v
  · exact Or.inl rfl
  · cases v with
    | jnull => exact Or.inl rfl
    | jbool b => exact Or.inr (Or.inl rfl)
    | jnum n => exact Or.inr (Or.inl rfl)
    | jstr str => exact Or.inr (Or.inl rfl)
    | jarr xs => exact Or.inr (Or.inl rfl)
    | jobj fields =>
      rcases h : responseId (some (JVal.jobj fields)) with _ | i
      · refine Or.inr (Or.inl ?_)
        simp [handleResponse, h]
      · by_cases hc : hasCorr s.correlations i = true
        · refine Or.inr (Or.inr ⟨JVal.jobj fields, i, rfl, ?_, hc, ?_⟩)
          · exact h ▸ rfl
          · simp [handleResponse, h, hc]
        · refine Or.inr (Or.inl ?_)
          simp [handleResponse, h, hc]

/-- `handleResponse` never touches the pending-command queue. -/
theorem handleResponse_pendingCommands (body : Option JVal) (s : BrokerState) :
    (handleResponse body s).2.pendingCommands = s.pendingCommands := by
  rcases handleResponse_cases body s with h | h | ⟨v, i, _, _, _, h⟩ <;> rw [h]

/-- `handleResponse` never touches the mode flag. -/
theorem handleResponse_gameIsPlaying (body : Option JVal) (s : BrokerState) :
    (handleResponse body s).2.gameIsPlaying = s.gameIsPlaying := by
  rcases handleResponse_cases body s with h | h | ⟨v, i, _, _, _, h⟩ <;> rw [h]

/-- An entry with a different id survives `eraseCorr`. -/
theorem mem_eraseCorr_of_ne (i : String) (e : CorrEntry) (l : List CorrEntry)
    (he : e ∈ l) (hne : e.id ≠ i) : e ∈ eraseCorr i l := by
  induction l with
  | nil => cases he
  | cons a rest ih =>
    rcases List.mem_cons.mp he with rfl | hmem
    · rw [eraseCorr, if_neg hne]
      exact List.mem_cons_self _ _
    · rw [eraseCorr]
      by_cases ha : a.id = i
      · rw [if_pos ha]; exact hmem
      · rw [if_neg ha]; exact List.mem_cons_of_mem _ (ih hmem)

/-- The outcome of the claimed command in `GET /command` depends only on the
queue and the mode flag. -/
theorem handleGetCommand_fst_congr (p : Option String) (s t : BrokerState)
    (hq : t.pendingCommands = s.pendingCommands)
    (hg : t.gameIsPlaying = s.gameIsPlaying) :
    (handleGetCommand p t).1 = (handleGetCommand p s).1 := by
  simp [handleGetCommand, hq, hg]

/-- `handleState` never touches the pending-command queue. -/
theorem handleState_pendingCommands (body : Option JVal) (s : BrokerState) :
    (handleState body s).2.pendingCommands = s.pendingCommands := by
  rcases body with _ | v
  · rfl
  · cases v <;> rfl

/-- `handleState` never touches the correlation table. -/
theorem handleState_correlations (body : Option JVal) (s : BrokerState) :
    (handleState body s).2.correlations = s.correlations := by
  rcases body with _ | v
  · rfl
  · cases v <;> rfl

/-- A `/response` body correlating on id `i` resolves the registered
correlation entry for `i`: the entry is erased and the caller's promise is
settled with the parsed body, under a 200 reply. -/
theorem handleResponse_resolve (v : JVal) (i : String) (s : BrokerState)
    (hid : responseId (some v) = some i) (hc : hasCorr s.correlations i = true) :
    handleResponse (some v) s =
      (200, { s with
                correlations := eraseCorr i s.correlations,
                outcomes := settleOutcome s.outcomes i (Outcome.resolved v) }) := by
  cases v with
  | jobj fields => simp [handleResponse, hid, hc]
  | jnull => simp [responseId, getField] at hid
  | jbool b => simp [responseId, getField] at hid
  | jnum n => simp [responseId, getField] at hid
  | jstr str => simp [responseId, getField] at hid
  | jarr xs => simp [responseId, getField] at hid

/-- A `/response` body correlating on an id with no registered entry is a pure
200 acknowledgment. -/
theorem handleResponse_ack (v : JVal) (i : String) (s : BrokerState)
    (hid : responseId (some v) = some i) (hc : hasCorr s.correlations i = false) :
    handleResponse (some v) s = (200, s) := by
  cases v with
  | jobj fields => simp [handleResponse, hid, hc]
  | jnull => simp [responseId, getField] at hid
  | jbool b => simp [responseId, getField] at hid
  | jnum n => simp [responseId, getField] at hid
  | jstr str => simp [responseId, getField] at hid
  | jarr xs => simp [responseId, getField] at hid

/-- With pairwise distinct ids, erasing id `i` leaves no entry for `i`. -/
theorem hasCorr_eraseCorr_self (i : String) (l : List CorrEntry)
    (h : (l.map CorrEntry.id).Nodup) : hasCorr (eraseCorr i l) i = false := by
  induction l with
  | nil => rfl
  | cons a rest ih =>
    rw [List.map_cons, List.nodup_cons] at h
    rw [eraseCorr]
    by_cases ha : a.id = i
    · rw [if_pos ha, hasCorr, List.any_eq_false]
      intro e he
      simp only [decide_eq_true_eq]
      intro hei
      exact h.1 (List.mem_map.mpr ⟨e, he, hei.trans ha.symm⟩)
    · rw [if_neg ha]
      have hrest := ih h.2
      rw [hasCorr] at hrest ⊢
      rw [List.any_cons, hrest, Bool.or_false, decide_eq_false ha]

/-- `Map.set` with an id absent from the map is an append. -/
theorem mapSetCommand_fresh (l : List Command) (c : Command)
    (h : ∀ x ∈ l, x.id ≠ c.id) : mapSetCommand l c = l ++ [c] := by
  have hany : (l.any fun x => x.id = c.id) = false := by
    rw [List.any_eq_false]
    intro x hx
    simpa using h x hx
  simp [mapSetCommand, hany]

/-- `Map.set` with an id absent from the correlation table is an append. -/
theorem mapSetCorr_fresh (l : List CorrEntry) (e : CorrEntry)
    (h : ∀ x ∈ l, x.id ≠ e.id) : mapSetCorr l e = l ++ [e] := by
  have hany : (l.any fun x => x.id = e.id) = false := by
    rw [List.any_eq_false]
    intro x hx
    simpa using h x hx
  simp [mapSetCorr, hany]

/-- Searching for id `i` when only the appended entry carries it finds exactly
that entry. -/
theorem find?_corr_append (i : String) (l : List CorrEntry) (e0 : CorrEntry)
    (h : ∀ e ∈ l, e.id ≠ i) (he : e0.id = i) :
    ((l ++ [e0]).find? fun e => e.id = i) = some e0 := by
  induction l with
  | nil => simp [List.find?, he]
  | cons a rest ih =>
    rw [List.cons_append, List.find?_cons_of_neg, ih (fun e he' => h e (List.mem_cons_of_mem _ he'))]
    simpa using h a (List.mem_cons_self a rest)

/-- Erasing id `i` when only the appended entry carries it removes exactly
that entry. -/
theorem eraseCorr_append (i : String) (l : List CorrEntry) (e0 : CorrEntry)
    (h : ∀ e ∈ l, e.id ≠ i) : eraseCorr i (l ++ [e0]) = l ++ eraseCorr i [e0] := by
  induction l with
  | nil => simp
  | cons a rest ih =>
    rw [List.cons_append, eraseCorr, if_neg (h a (List.mem_cons_self a rest)),
      ih (fun e he' => h e (List.mem_cons_of_mem _ he')), List.cons_append]

/-- Erasing id `i` from a queue when only the appended command carries it
removes exactly that command. -/
theorem eraseCommand_append (i : String) (l : List Command) (c0 : Command)
    (h : ∀ c ∈ l, c.id ≠ i) : eraseCommand i (l ++ [c0]) = l ++ eraseCommand i [c0] := by
  induction l with
  | nil => simp
  | cons a rest ih =>
    rw [List.cons_append, eraseCommand, if_neg (h a (List.mem_cons_self a rest)),
      ih (fun c hc' => h c (List.mem_cons_of_mem _ hc')), List.cons_append]

/-- Settling a promise for a fresh id appends its outcome. -/
theorem settleOutcome_fresh (l : List (String × Outcome)) (i : String) (o : Outcome)
    (h : ∀ p ∈ l, p.1 ≠ i) : settleOutcome l i o = l ++ [(i, o)] := by
  have hany : (l.any fun p => p.1 = i) = false := by
    rw [List.any_eq_false]
    intro p hp
    simpa using h p hp
  simp [settleOutcome, hany]

/-- Looking up a fresh id after appending its outcome finds that outcome. -/
theorem lookupOutcome_append (i : String) (l : List (String × Outcome)) (o : Outcome)
    (h : ∀ p ∈ l, p.1 ≠ i) : lookupOutcome i (l ++ [(i, o)]) = some o := by
  induction l with
  | nil => simp [lookupOutcome]
  | cons a rest ih =>
    obtain ⟨k, w⟩ := a
    rw [List.cons_append, lookupOutcome,
      if_neg (h (k, w) (List.mem_cons_self (k, w) rest)),
      ih (fun p hp => h p (List.mem_cons_of_mem _ hp))]

/-- A poll over a queue with no deliverable command claims nothing. -/
theorem claimFirst_eq_none (g : Bool) (x : String) (cmds : List Command)
    (h : ∀ c ∈ cmds, shouldDeliverToContext g c x = false) :
    (claimFirst g x cmds).1 = none := by
  induction cmds with
  | nil => rfl
  | cons a rest ih =>
    have ha := h a (List.mem_cons_self a rest)
    simp only [claimFirst, ha, Bool.false_eq_true, if_false]
    exact ih fun c hc => h c (List.mem_cons_of_mem _ hc)

/-- A successful claim splits the queue: everything before the claimed command
was not deliverable, the claimed command was, and the remaining queue is the
rest with exactly that command removed. -/
theorem claimFirst_some_spec (g : Bool) (x : String) (cmds : List Command)
    (c : Command) (h : (claimFirst g x cmds).1 = some c) :
    shouldDeliverToContext g c x = true ∧
    ∃ pre post, cmds = pre ++ c :: post ∧
      (∀ d ∈ pre, shouldDeliverToContext g d x = false) ∧
      (claimFirst g x cmds).2 = pre ++ post := by
  induction cmds with
  | nil => exact absurd h (by simp [claimFirst])
  | cons a rest ih =>
    by_cases hd : shouldDeliverToContext g a x = true
    · have hc : c = a := by
        simp only [claimFirst, hd, if_true] at h
        exact (Option.some.inj h).symm
      subst hc
      refine ⟨hd, [], rest, rfl, by simp, ?_⟩
      simp [claimFirst, hd]
    · have hrec : (claimFirst g x rest).1 = some c := by
        simpa only [claimFirst, hd, if_false] using h
      obtain ⟨hdel, pre, post, hsplit, hpre, hrest⟩ := ih hrec
      refine ⟨hdel, a :: pre, post, by rw [hsplit, List.cons_append], ?_, ?_⟩
      · intro d hdm
        rcases List.mem_cons.mp hdm with rfl | hdm
        · exact Bool.eq_false_iff.mpr hd
        · exact hpre d hdm
      · simp only [claimFirst, hd, Bool.false_eq_true, if_false]
        rw [hrest, List.cons_append]

/-- The queue left by a claim only contains commands of the original queue. -/
theorem mem_claimFirst_snd (g : Bool) (x : String) (cmds : List Command)
    (d : Command) (hd : d ∈ (claimFirst g x cmds).2) : d ∈ cmds := by
  induction cmds with
  | nil => simp [claimFirst] at hd
  | cons a rest ih =>
    by_cases hdel : shouldDeliverToContext g a x = true
    · simp only [claimFirst, hdel, if_true] at hd
      exact List.mem_cons_of_mem _ hd
    · simp only [claimFirst, hdel, Bool.false_eq_true, if_false] at hd
      rcases List.mem_cons.mp hd with rfl | hd
      · exact List.mem_cons_self _ _
      · exact List.mem_cons_of_mem _ (ih hd)

/-- A claimed command comes from the polled queue. -/
theorem claimFirst_fst_mem (g : Bool) (x : String) (cmds : List Command)
    (c : Command) (h : (claimFirst g x cmds).1 = some c) : c ∈ cmds := by
  obtain ⟨_, pre, post, hsplit, _, _⟩ := claimFirst_some_spec g x cmds c h
  rw [hsplit]
  exact List.mem_append.mpr (Or.inr (List.mem_cons_self _ _))

/-- The claimed command of `GET /command` is the head of the claim loop. -/
theorem handleGetCommand_fst (p : Option String) (s : BrokerState) :
    (handleGetCommand p s).1 =
      (claimFirst s.gameIsPlaying (pollContext p) s.pendingCommands).1 := rfl

/-- The queue after `GET /command` is what the claim loop leaves. -/
theorem handleGetCommand_snd (p : Option String) (s : BrokerState) :
    (handleGetCommand p s).2.pendingCommands =
      (claimFirst s.gameIsPlaying (pollContext p) s.pendingCommands).2 := rfl

/-- A member of a queue after `Map.set` is an old member or the set command. -/
theorem mem_mapSetCommand (l : List Command) (c d : Command)
    (hd : d ∈ mapSetCommand l c) : d ∈ l ∨ d = c := by
  rw [mapSetCommand] at hd
  by_cases h : (l.any fun x => x.id = c.id) = true
  · rw [if_pos h] at hd
    rcases List.mem_map.mp hd with ⟨x, hx, hxd⟩
    by_cases hxc : x.id = c.id
    · right; rw [← hxd, if_pos hxc]
    · left; rw [← hxd, if_neg hxc]; exact hx
  · rw [if_neg h] at hd
    rcases List.mem_append.mp hd with h1 | h1
    · exact Or.inl h1
    · exact Or.inr (List.mem_singleton.mp h1)

/-- `Map.delete` on the queue only removes commands. -/
theorem mem_eraseCommand (i : String) (l : List Command) (d : Command)
    (hd : d ∈ eraseCommand i l) : d ∈ l := by
  induction l with
  | nil => simp [eraseCommand] at hd
  | cons a rest ih =>
    rw [eraseCommand] at hd
    by_cases ha : a.id = i
    · rw [if_pos ha] at hd
      exact List.mem_cons_of_mem _ hd
    · rw [if_neg ha] at hd
      rcases List.mem_cons.mp hd with rfl | hd
      · exact List.mem_cons_self _ _
      · exact List.mem_cons_of_mem _ (ih hd)

/-- After any single event, a queued command either was already queued or was
just submitted by that very event. -/
theorem mem_step_pendingCommands (s : BrokerState) (ev : Event) (d : Command)
    (hd : d ∈ (step s ev).pendingCommands) :
    d ∈ s.pendingCommands ∨
      ∃ a pl t j n, ev = Event.submit a pl t j n ∧ d.id = j := by
  cases ev with
  | submit a pl t j n =>
    rcases mem_mapSetCommand s.pendingCommands _ d hd with h | h
    · exact Or.inl h
    · exact Or.inr ⟨a, pl, t, j, n, rfl, by rw [h]⟩
  | pollCmd p => exact Or.inl (mem_claimFirst_snd _ _ _ d hd)
  | postResponse body =>
    rw [step, handleResponse_pendingCommands] at hd
    exact Or.inl hd
  | postState body =>
    rw [step, handleState_pendingCommands] at hd
    exact Or.inl hd
  | fire j =>
    rw [step, fireTimeout] at hd
    rcases hf : s.correlations.find? fun e => e.id = j with _ | e
    · rw [hf] at hd
      exact Or.inl hd
    · rw [hf] at hd
      exact Or.inl (mem_eraseCommand j s.pendingCommands d hd)

/-- If no queued command carries id `i` and no event of a trace submits id
`i`, then no queued command carries id `i` after running the trace. -/
theorem run_id_free (i : String) (es : List Event) (s : BrokerState)
    (h : ∀ c ∈ s.pendingCommands, c.id ≠ i)
    (hes : ∀ ev ∈ es, submitsId i ev = false) :
    ∀ c ∈ (run s es).pendingCommands, c.id ≠ i := by
  induction es generalizing s with
  | nil => exact h
  | cons ev rest ih =>
    show ∀ c ∈ (run (step s ev) rest).pendingCommands, c.id ≠ i
    refine ih (step s ev) ?_ (fun e he => hes e (List.mem_cons_of_mem _ he))
    intro c hc
    rcases mem_step_pendingCommands s ev c hc with hmem | ⟨a, pl, t, j, n, hev, hcid⟩
    · exact h c hmem
    · have hj := hes ev (List.mem_cons_self _ _)
      rw [hev] at hj
      have : j ≠ i := by simpa [submitsId] using hj
      rw [hcid]
      exact this

/-! ## Claims -/

/-- C7: a `POST /response` whose body fails to parse as JSON is answered with
a 400 client error and leaves the whole broker state — correlation table,
pending-command queue, mode, and every caller's pending promise — unchanged. -/
theorem C7_malformed_response_rejected (s : BrokerState) :
    handleResponse none s = (400, s) ∧
    (handleResponse none s).2.correlations = s.correlations ∧
    (handleResponse none s).2.pendingCommands = s.pendingCommands ∧
    (handleResponse none s).2.gameIsPlaying = s.gameIsPlaying ∧
    (handleResponse none s).2.outcomes = s.outcomes :=
  ⟨rfl, rfl, rfl, rfl, rfl⟩

/-- C9: a `GET /command` without a `context` query parameter, or with an empty
one, behaves exactly like an explicit `context=Edit` poll. -/
theorem C9_default_poll_context (s : BrokerState) :
    handleGetCommand none s = handleGetCommand (some "Edit") s ∧
    handleGetCommand (some "") s = handleGetCommand (some "Edit") s := by
  constructor <;> simp [handleGetCommand, pollContext]

/-- C8: delivering a response never dequeues the command: `POST /response`
leaves the pending-command queue and the mode untouched, removes at most the
matching correlation entry, and a subsequent poll claims exactly what it would
have claimed before the response was delivered. -/
theorem C8_response_never_dequeues (s : BrokerState) (body : Option JVal) :
    (handleResponse body s).2.pendingCommands = s.pendingCommands ∧
    (handleResponse body s).2.gameIsPlaying = s.gameIsPlaying ∧
    (∀ e ∈ s.correlations, responseId body ≠ some e.id →
      e ∈ (handleResponse body s).2.correlations) ∧
    (∀ p, (handleGetCommand p (handleResponse body s).2).1 =
      (handleGetCommand p s).1) := by
  refine ⟨handleResponse_pendingCommands body s, handleResponse_gameIsPlaying body s,
    ?_, ?_⟩
  · intro e he hne
    rcases handleResponse_cases body s with h | h | ⟨v, i, _, hid, _, h⟩
    · rw [h]; exact he
    · rw [h]; exact he
    · rw [h]
      refine mem_eraseCorr_of_ne i e s.correlations he ?_
      intro hei
      exact hne (by rw [hid, hei])
  · intro p
    exact handleGetCommand_fst_congr p s _ (handleResponse_pendingCommands body s)
      (handleResponse_gameIsPlaying body s)

/-- C2: target-context resolution is a total function of the action name and
the mode, under the documented precedence: edit-only actions always resolve to
Edit; the active-preferred action resolves to Server when the game is playing
and falls through to the any-context rule (Edit) otherwise; any-context and
unclassified actions resolve to Server during play and Edit otherwise; and the
result is always exactly one of the two contexts. -/
theorem C2_routing_precedence (action : String) (playing : Bool) :
    (action ∈ EDIT_ONLY_ACTIONS → getTargetContext playing action = "Edit") ∧
    (action ∈ SERVER_ONLY_ACTIONS →
      getTargetContext playing action = if playing then "Server" else "Edit") ∧
    (action ∉ EDIT_ONLY_ACTIONS → action ∉ SERVER_ONLY_ACTIONS →
      getTargetContext playing action = if playing then "Server" else "Edit") ∧
    (getTargetContext playing action = "Edit" ∨
      getTargetContext playing action = "Server") := by
  refine ⟨fun h => ?_, fun h => ?_, fun h1 h2 => getTargetContext_fallback playing action h1 h2, ?_⟩
  · rw [getTargetContext, if_pos h]
  · have ha : action = "execute" := by simpa [SERVER_ONLY_ACTIONS] using h
    subst ha
    cases playing <;> decide
  · rw [getTargetContext]
    split_ifs <;> simp

/-- Witness for C2: an edit-only action during play, the active-preferred
action while idle, and an unclassified action during play. -/
theorem C2_routing_precedence_witness :
    getTargetContext true "reload" = "Edit" ∧
    getTargetContext false "execute" = "Edit" ∧
    getTargetContext true "myCustomAction" = "Server" :=
  ⟨(C2_routing_precedence "reload" true).1 (by decide),
   by simpa using (C2_routing_precedence "execute" false).2.1 (by decide),
   by simpa using (C2_routing_precedence "myCustomAction" true).2.2.1 (by decide) (by decide)⟩

/-- C10 counterexample: the body `null` is well-formed JSON whose `isPlaying`
field is not the boolean `true`, yet with the game playing the handler answers
400 and leaves Mode active instead of setting it to idle. -/
theorem C10_counterexample :
    getField JVal.jnull "isPlaying" ≠ some (JVal.jbool true) ∧
    (handleState (some JVal.jnull)
      { pendingCommands := [], correlations := [], gameIsPlaying := true,
        outcomes := [] }).2.gameIsPlaying = true ∧
    (handleState (some JVal.jnull)
      { pendingCommands := [], correlations := [], gameIsPlaying := true,
        outcomes := [] }).1 = (400, none) :=
  ⟨by simp [getField], rfl, rfl⟩

/-- C10 (amended): for every `POST /state` whose well-formed JSON body is not
the literal `null`, Mode becomes active iff the body's `isPlaying` field is
exactly the boolean `true` (any other value, including a missing field on a
non-object body, sets Mode to idle), and the 200 reply echoes the resulting
mode; a body of literal `null` parses but makes the handler throw on property
access, so it is answered 400 and leaves Mode unchanged. -/
theorem C10_strict_boolean_mode (s : BrokerState) (v : JVal) (hv : v ≠ JVal.jnull) :
    ((handleState (some v) s).2.gameIsPlaying = true ↔
      getField v "isPlaying" = some (JVal.jbool true)) ∧
    (handleState (some v) s).1 =
      (200, some ((handleState (some v) s).2.gameIsPlaying)) ∧
    (handleState (some JVal.jnull) s).1 = (400, none) ∧
    (handleState (some JVal.jnull) s).2 = s := by
  cases v with
  | jnull => exact absurd rfl hv
  | jbool b =>
    exact ⟨strictEqTrue_iff (getField (JVal.jbool b) "isPlaying"), rfl, rfl, rfl⟩
  | jnum n =>
    exact ⟨strictEqTrue_iff (getField (JVal.jnum n) "isPlaying"), rfl, rfl, rfl⟩
  | jstr str =>
    exact ⟨strictEqTrue_iff (getField (JVal.jstr str) "isPlaying"), rfl, rfl, rfl⟩
  | jarr xs =>
    exact ⟨strictEqTrue_iff (getField (JVal.jarr xs) "isPlaying"), rfl, rfl, rfl⟩
  | jobj fields =>
    exact ⟨strictEqTrue_iff (getField (JVal.jobj fields) "isPlaying"), rfl, rfl, rfl⟩

/-- C3: at-most-one-claim.  A `GET /command` with no deliverable pending
command answers 204 with no command; a successful claim takes the first
command (in insertion order) deliverable to the requesting context — every
earlier command was not deliverable — and removes exactly it from the queue in
the same step, so that, with distinct queued ids, no queued command carries
its id any more and no later poll from any context, after any further events
that do not re-submit that id, can receive the same command again. -/
theorem C3_at_most_one_claim (s : BrokerState) (p : Option String) :
    ((∀ c ∈ s.pendingCommands,
        shouldDeliverToContext s.gameIsPlaying c (pollContext p) = false) →
      (handleGetCommand p s).1 = none) ∧
    (∀ c, (s.pendingCommands.map Command.id).Nodup →
      (handleGetCommand p s).1 = some c →
      shouldDeliverToContext s.gameIsPlaying c (pollContext p) = true ∧
      (∃ pre post,
        s.pendingCommands = pre ++ c :: post ∧
        (∀ d ∈ pre, shouldDeliverToContext s.gameIsPlaying d (pollContext p) = false) ∧
        (handleGetCommand p s).2.pendingCommands = pre ++ post) ∧
      (∀ d ∈ (handleGetCommand p s).2.pendingCommands, d.id ≠ c.id) ∧
      (∀ es, (∀ ev ∈ es, submitsId c.id ev = false) →
        ∀ p', (handleGetCommand p' (run (handleGetCommand p s).2 es)).1 ≠ some c)) := by
  constructor
  · intro h
    rw [handleGetCommand_fst]
    exact claimFirst_eq_none _ _ _ h
  · intro c hnodup hclaim
    rw [handleGetCommand_fst] at hclaim
    obtain ⟨hdel, pre, post, hsplit, hpre, hrest⟩ :=
      claimFirst_some_spec _ _ _ c hclaim
    have hqueue : (handleGetCommand p s).2.pendingCommands = pre ++ post := by
      rw [handleGetCommand_snd, hrest]
    have hfree : ∀ d ∈ (handleGetCommand p s).2.pendingCommands, d.id ≠ c.id := by
      rw [hqueue]
      rw [hsplit, List.map_append, List.map_cons] at hnodup
      obtain ⟨hpreN, hpostN, hdisj⟩ := List.nodup_append.mp hnodup
      intro d hd hdc
      rcases List.mem_append.mp hd with hd | hd
      · exact hdisj (List.mem_map.mpr ⟨d, hd, hdc⟩) (List.mem_cons_self _ _)
      · exact (List.nodup_cons.mp hpostN).1 (hdc ▸ List.mem_map.mpr ⟨d, hd, rfl⟩)
    refine ⟨hdel, ⟨pre, post, hsplit, hpre, hqueue⟩, hfree, ?_⟩
    intro es hes p' habs
    have hrunfree := run_id_free c.id es (handleGetCommand p s).2 hfree hes
    have hmem : c ∈ (run (handleGetCommand p s).2 es).pendingCommands := by
      rw [handleGetCommand_fst] at habs
      exact claimFirst_fst_mem _ _ _ c habs
    exact hrunfree c hmem rfl

/-- Command sitting in the queue in the C3 witness scenario. -/
def c3Cmd : Command :=
  { id := "cmd-3", action := "echo", payload := none, timestamp := 0,
    targetContext := some "Edit" }

/-- One-command broker state used to witness C3. -/
def c3State : BrokerState :=
  { pendingCommands := [c3Cmd], correlations := [], gameIsPlaying := false,
    outcomes := [] }

/-- Witness for C3: one queued command, claimed by an Edit poll; an immediate
second poll — from any context — can no longer receive it. -/
theorem C3_at_most_one_claim_witness :
    shouldDeliverToContext c3State.gameIsPlaying c3Cmd (pollContext (some "Edit")) = true ∧
    (∀ p', (handleGetCommand p'
      (run (handleGetCommand (some "Edit") c3State).2 [])).1 ≠ some c3Cmd) := by
  have h := (C3_at_most_one_claim c3State (some "Edit")).2 c3Cmd (by decide) rfl
  exact ⟨h.1, h.2.2.2 [] (by simp)⟩

/-- Response body posted by the simulated poller in the round-trip scenario. -/
def c1Body : JVal :=
  JVal.jobj [("id", JVal.jstr "cmd-1"), ("success", JVal.jbool true),
    ("result", JVal.jnum 42)]

/-- Round-trip scenario, step 1: `submit("echo", {value: 42}, 5000ms)` from
the idle initial state. -/
def c1Submit : Command × BrokerState :=
  sendCommandHttp "echo" (some [("value", JVal.jnum 42)]) 5000 "cmd-1" 0 initState

/-- Round-trip scenario, step 2: the simulated poller claims via
`GET /command?context=Edit`. -/
def c1Claim : Option Command × BrokerState :=
  handleGetCommand (some "Edit") c1Submit.2

/-- Round-trip scenario, step 3: the poller posts `{id, success: true,
result: 42}` to `/response`. -/
def c1Deliver : Nat × BrokerState :=
  handleResponse (some c1Body) c1Claim.2

/-- C1: round-trip correctness.  In the scenario above, the poller claims
exactly the submitted command, the posted response carries the claimed
command's id, the delivery is acknowledged with 200 and resolves the original
submit call with the `{success: true, result: 42}` response body, and the
response cleared the timer, so the timeout can no longer fire on this
command. -/
theorem C1_round_trip :
    c1Claim.1 = some c1Submit.1 ∧
    getField c1Body "id" = some (JVal.jstr c1Submit.1.id) ∧
    c1Deliver.1 = 200 ∧
    lookupOutcome "cmd-1" c1Deliver.2.outcomes = some (Outcome.resolved c1Body) ∧
    getField c1Body "success" = some (JVal.jbool true) ∧
    getField c1Body "result" = some (JVal.jnum 42) ∧
    fireTimeout "cmd-1" c1Deliver.2 = c1Deliver.2 :=
  ⟨rfl, rfl, rfl, rfl, rfl, rfl, rfl⟩

/-- C4: at-most-once resolution and late/duplicate tolerance.  With distinct
ids in the correlation table, a `/response` whose id matches a registered
entry resolves that caller's promise and erases exactly that entry; repeating
the same `/response` afterwards invokes no callback and changes nothing while
still being acknowledged with 200; and a `/response` whose id matches no entry
(never issued, or already timed out) is a 200-acknowledged no-op. -/
theorem C4_at_most_once_resolution (s : BrokerState) (body body2 : JVal) (i : String)
    (hids : (s.correlations.map CorrEntry.id).Nodup)
    (hid : responseId (some body) = some i)
    (hid2 : responseId (some body2) = some i) :
    (hasCorr s.correlations i = true →
      handleResponse (some body) s =
        (200, { s with
                  correlations := eraseCorr i s.correlations,
                  outcomes := settleOutcome s.outcomes i (Outcome.resolved body) }) ∧
      hasCorr (eraseCorr i s.correlations) i = false ∧
      (∀ e ∈ s.correlations, e.id ≠ i → e ∈ eraseCorr i s.correlations) ∧
      handleResponse (some body2) (handleResponse (some body) s).2 =
        (200, (handleResponse (some body) s).2)) ∧
    (hasCorr s.correlations i = false →
      handleResponse (some body) s = (200, s)) := by
  refine ⟨fun hc => ?_, fun hc => handleResponse_ack body i s hid hc⟩
  have h1 := handleResponse_resolve body i s hid hc
  have h2 : hasCorr (eraseCorr i s.correlations) i = false :=
    hasCorr_eraseCorr_self i s.correlations hids
  refine ⟨h1, h2, fun e he hne => mem_eraseCorr_of_ne i e s.correlations he hne, ?_⟩
  rw [h1]
  exact handleResponse_ack body2 i _ hid2 h2

/-- State with one registered correlation, used to witness C4. -/
def c4State : BrokerState :=
  { pendingCommands := [], correlations := [⟨"cmd-9", "echo", "Edit", 100⟩],
    gameIsPlaying := false, outcomes := [] }

/-- Response body used to witness C4. -/
def c4Body : JVal :=
  JVal.jobj [("id", JVal.jstr "cmd-9"), ("success", JVal.jbool true)]

/-- Witness for C4: resolving a registered id and then replaying the very same
response is acknowledged without changing anything. -/
theorem C4_at_most_once_resolution_witness :
    handleResponse (some c4Body) (handleResponse (some c4Body) c4State).2 =
      (200, (handleResponse (some c4Body) c4State).2) :=
  ((C4_at_most_once_resolution c4State c4Body c4Body "cmd-9"
    (by decide) rfl rfl).1 rfl).2.2.2

/-- C5: timeout fires.  Submitting a command with an id fresh for the queue,
the correlation table and the settled outcomes, and then letting its timer
fire with no claim and no response in between, rejects the caller's promise
with the timeout error — whose text carries both the command id and the
action — and leaves neither a correlation entry nor a queued command for that
id. -/
theorem C5_timeout_fires (s : BrokerState) (action : String)
    (payload : Option (List (String × JVal))) (tmo : Nat) (i : String) (now : Nat)
    (hq : ∀ c ∈ s.pendingCommands, c.id ≠ i)
    (hk : ∀ e ∈ s.correlations, e.id ≠ i)
    (ho : ∀ p ∈ s.outcomes, p.1 ≠ i) :
    let s2 := fireTimeout i (sendCommandHttp action payload tmo i now s).2
    lookupOutcome i s2.outcomes =
      some (Outcome.rejected
        (timeoutMessage i action (getTargetContext s.gameIsPlaying action))) ∧
    (∃ a b, timeoutMessage i action (getTargetContext s.gameIsPlaying action) =
      a ++ i ++ b) ∧
    (∃ a b, timeoutMessage i action (getTargetContext s.gameIsPlaying action) =
      a ++ action ++ b) ∧
    hasCorr s2.correlations i = false ∧
    (∀ c ∈ s2.pendingCommands, c.id ≠ i) := by
  intro s2
  have hcmds : (sendCommandHttp action payload tmo i now s).2.pendingCommands =
      s.pendingCommands ++ [(sendCommandHttp action payload tmo i now s).1] :=
    mapSetCommand_fresh s.pendingCommands _ (fun x hx => hq x hx)
  have hcorrs : (sendCommandHttp action payload tmo i now s).2.correlations =
      s.correlations ++ [⟨i, action, getTargetContext s.gameIsPlaying action, now + tmo⟩] :=
    mapSetCorr_fresh s.correlations _ (fun x hx => hk x hx)
  have hkey : s2 =
      { pendingCommands := s.pendingCommands,
        correlations := s.correlations,
        gameIsPlaying := s.gameIsPlaying,
        outcomes := s.outcomes ++
          [(i, Outcome.rejected
            (timeoutMessage i action (getTargetContext s.gameIsPlaying action)))] } := by
    show fireTimeout i (sendCommandHttp action payload tmo i now s).2 = _
    rw [fireTimeout, hcorrs,
      find?_corr_append i s.correlations _ (fun e he => hk e he) rfl]
    simp only [hcmds, hcorrs]
    have hout : (sendCommandHttp action payload tmo i now s).2.outcomes = s.outcomes := rfl
    have hpl : (sendCommandHttp action payload tmo i now s).2.gameIsPlaying =
      s.gameIsPlaying := rfl
    rw [hout, hpl, eraseCorr_append i s.correlations _ (fun e he => hk e he),
      eraseCommand_append i s.pendingCommands _ (fun c hc => hq c hc),
      settleOutcome_fresh s.outcomes i _ (fun p hp => ho p hp)]
    simp [eraseCorr, eraseCommand, sendCommandHttp]
  refine ⟨?_, ⟨"Timeout waiting for response to command ",
      " (action: " ++ action ++ ", target: " ++
        getTargetContext s.gameIsPlaying action ++ ")", by
          simp [timeoutMessage, String.append_assoc]⟩,
    ⟨"Timeout waiting for response to command " ++ i ++ " (action: ",
      ", target: " ++ getTargetContext s.gameIsPlaying action ++ ")", by
        simp [timeoutMessage, String.append_assoc]⟩, ?_, ?_⟩
  · rw [hkey]
    exact lookupOutcome_append i s.outcomes _ (fun p hp => ho p hp)
  · rw [hkey]
    rw [hasCorr, List.any_eq_false]
    intro e he
    simpa using hk e he
  · rw [hkey]
    exact hq

/-- Witness for C5: a 50ms submit of an action nobody handles, from the empty
initial state, times out with the documented message and empties the table and
the queue. -/
theorem C5_timeout_fires_witness :
    lookupOutcome "cmd-7"
        (fireTimeout "cmd-7"
          (sendCommandHttp "noopActionNobodyHandles" none 50 "cmd-7" 0 initState).2).outcomes =
      some (Outcome.rejected
        (timeoutMessage "cmd-7" "noopActionNobodyHandles"
          (getTargetContext false "noopActionNobodyHandles"))) :=
  (C5_timeout_fires initState "noopActionNobodyHandles" none 50 "cmd-7" 0
    (by simp [initState]) (by simp [initState]) (by simp [initState])).1

/-- C6: mode flip mid-flight.  An action that is neither edit-only nor
active-preferred, submitted while Mode is idle, gets target context Edit
stored on the command at submission time; a `/state` report flipping Mode to
active leaves the queue and that stored target untouched, so the command is
still deliverable to Edit and to no other context, while the next submit of
the same action resolves to Server. -/
theorem C6_mode_flip_mid_flight (s : BrokerState) (action : String)
    (payload payload2 : Option (List (String × JVal))) (tmo tmo2 : Nat)
    (i i2 : String) (now now2 : Nat) (body : JVal)
    (hIdle : s.gameIsPlaying = false)
    (h1 : action ∉ EDIT_ONLY_ACTIONS)
    (h2 : action ∉ SERVER_ONLY_ACTIONS)
    (hb : getField body "isPlaying" = some (JVal.jbool true)) :
    let r := sendCommandHttp action payload tmo i now s
    let s2 := (handleState (some body) r.2).2
    r.1.targetContext = some "Edit" ∧
    s2.gameIsPlaying = true ∧
    s2.pendingCommands = r.2.pendingCommands ∧
    shouldDeliverToContext s2.gameIsPlaying r.1 "Edit" = true ∧
    (∀ ctx, ctx ≠ "Edit" → shouldDeliverToContext s2.gameIsPlaying r.1 ctx = false) ∧
    (sendCommandHttp action payload2 tmo2 i2 now2 s2).1.targetContext = some "Server" := by
  intro r s2
  have htc : getTargetContext s.gameIsPlaying action = "Edit" := by
    rw [getTargetContext_fallback _ _ h1 h2, hIdle]
    rfl
  have hr : r.1.targetContext = some "Edit" := by
    show some (getTargetContext s.gameIsPlaying action) = some "Edit"
    rw [htc]
  have hplay : s2.gameIsPlaying = true := by
    cases body with
    | jobj fields =>
      show strictEqTrue (getField (JVal.jobj fields) "isPlaying") = true
      exact (strictEqTrue_iff _).mpr hb
    | jnull => simp [getField] at hb
    | jbool b => simp [getField] at hb
    | jnum n => simp [getField] at hb
    | jstr str => simp [getField] at hb
    | jarr xs => simp [getField] at hb
  refine ⟨hr, hplay, handleState_pendingCommands (some body) r.2, ?_, ?_, ?_⟩
  · rw [shouldDeliverToContext, hr]
    rfl
  · intro ctx hctx
    rw [shouldDeliverToContext, hr]
    simp only []
    show decide (("Edit" : String) = ctx) = false
    exact decide_eq_false fun h => hctx h.symm
  · show some (getTargetContext s2.gameIsPlaying action) = some "Server"
    rw [hplay, getTargetContext_fallback _ _ h1 h2]
    rfl

/-- Witness for C6: the concrete mode-flip scenario with action `echo`. -/
theorem C6_mode_flip_mid_flight_witness :
    (sendCommandHttp "echo" none 5000 "a" 0 initState).1.targetContext = some "Edit" ∧
    (sendCommandHttp "echo" none 5000 "b" 7
      (handleState (some (JVal.jobj [("isPlaying", JVal.jbool true)]))
        (sendCommandHttp "echo" none 5000 "a" 0 initState).2).2).1.targetContext =
      some "Server" := by
  have h := C6_mode_flip_mid_flight initState "echo" none none 5000 5000 "a" "b" 0 7
    (JVal.jobj [("isPlaying", JVal.jbool true)]) rfl (by decide) (by decide) rfl
  exact ⟨h.1, h.2.2.2.2.2⟩

/-- Witness for C10: a body with `isPlaying: true` switches Mode to active,
and one with `isPlaying: false` switches it back to idle. -/
theorem C10_strict_boolean_mode_witness :
    (handleState (some (JVal.jobj [("isPlaying", JVal.jbool true)])) initState).2.gameIsPlaying
      = true ∧
    (handleState (some (JVal.jobj [("isPlaying", JVal.jbool false)]))
      { initState with gameIsPlaying := true }).2.gameIsPlaying = false :=
  ⟨(C10_strict_boolean_mode initState (JVal.jobj [("isPlaying", JVal.jbool true)])
      (by simp)).1.mpr rfl,
   by
    have h := (C10_strict_boolean_mode { initState with gameIsPlaying := true }
      (JVal.jobj [("isPlaying", JVal.jbool false)]) (by simp)).1
    revert h
    cases hb : (handleState (some (JVal.jobj [("isPlaying", JVal.jbool false)]))
      { initState with gameIsPlaying := true }).2.gameIsPlaying
    · intro _; rfl
    · intro h
      have := h.mp rfl
      simp [getField, lookupField] at this⟩
